import Mathlib

/-!
Shallow embedding of `src/src/shaders/gradients/SkTwoPointConicalGradient.cpp`.

Scalars (`SkScalar`, C++ `float`) are modelled as real numbers; geometric
lengths use `Real.sqrt`.  The file embeds the construction/classification
path (`Create`), the stage synthesis (`appendGradientStages`), the opacity
query (`isOpaque`) and the serialization round trip
(`flatten` / `CreateProc`), and proves the spec claims about them.
-/

open Classical

/-- A 2D point, as in `SkPoint` (fields `fX`, `fY`). -/
structure SkPoint where
  x : ℝ
  y : ℝ

/-- `SkPoint::operator-`: componentwise difference of two points. -/
noncomputable def SkPoint.sub (a b : SkPoint) : SkPoint :=
  ⟨a.x - b.x, a.y - b.y⟩

/-- `SkPoint::length()`: the Euclidean norm `sqrt(fX*fX + fY*fY)`. -/
noncomputable def SkPoint.length (p : SkPoint) : ℝ :=
  Real.sqrt (p.x * p.x + p.y * p.y)

/-- A 2D affine transform, as the affine part of `SkMatrix`:
row one is `(sx, kx, tx)`, row two is `(ky, sy, ty)`. -/
structure SkMatrix where
  sx : ℝ
  kx : ℝ
  tx : ℝ
  ky : ℝ
  sy : ℝ
  ty : ℝ

/-- Application of an affine `SkMatrix` to a point (`SkMatrix::mapPoints`). -/
noncomputable def SkMatrix.apply (m : SkMatrix) (p : SkPoint) : SkPoint :=
  ⟨m.sx * p.x + m.kx * p.y + m.tx, m.ky * p.x + m.sy * p.y + m.ty⟩

/-- `SkMatrix::MakeTrans(dx, dy)`: pure translation. -/
noncomputable def SkMatrix.MakeTrans (dx dy : ℝ) : SkMatrix :=
  ⟨1, 0, dx, 0, 1, dy⟩

/-- `SkMatrix::MakeScale(sx, sy)`: pure scale about the origin. -/
noncomputable def SkMatrix.MakeScale (sx sy : ℝ) : SkMatrix :=
  ⟨sx, 0, 0, 0, sy, 0⟩

/-- `SkMatrix::Concat(a, b)`: the matrix product `a * b`, i.e. the transform
applying `b` first and then `a`. -/
noncomputable def SkMatrix.Concat (a b : SkMatrix) : SkMatrix :=
  ⟨a.sx * b.sx + a.kx * b.ky, a.sx * b.kx + a.kx * b.sy,
   a.sx * b.tx + a.kx * b.ty + a.tx,
   a.ky * b.sx + a.sy * b.ky, a.ky * b.kx + a.sy * b.sy,
   a.ky * b.tx + a.sy * b.ty + a.ty⟩

/-- `SkMatrix::postScale(sx, sy)`: post-concatenation with a scale,
`m ↦ MakeScale(sx, sy) * m` (the scale is applied after `m`). -/
noncomputable def SkMatrix.postScale (m : SkMatrix) (sx sy : ℝ) : SkMatrix :=
  SkMatrix.Concat (SkMatrix.MakeScale sx sy) m

theorem SkMatrix.Concat_apply (a b : SkMatrix) (p : SkPoint) :
    (SkMatrix.Concat a b).apply p = a.apply (b.apply p) := by
  simp only [SkMatrix.Concat, SkMatrix.apply, SkPoint.mk.injEq]
  constructor <;> ring

/-- The default tolerance `SK_ScalarNearlyZero = 1 / (1 << 12)` from
`SkScalar.h`. -/
noncomputable def SK_ScalarNearlyZero : ℝ := 1 / 4096

/-- Modelled from the spec: "numerically indistinguishable from zero (within a
small relative tolerance)".  `SkScalarNearlyZero` lives in
`include/core/SkScalar.h` (outside `src/`); it tests
`SkScalarAbs(x) <= tolerance` with the default tolerance
`SK_ScalarNearlyZero`. -/
def SkScalarNearlyZero (x : ℝ) : Prop :=
  |x| ≤ SK_ScalarNearlyZero

/-- The `SkTwoPointConicalGradient::Type` tag: `kRadial` is the concentric
case, `kTwoPoint` the general two-point case. -/
inductive GradientType where
  | kRadial : GradientType
  | kTwoPoint : GradientType
deriving DecidableEq

/-- The state of a constructed `SkTwoPointConicalGradient`: the two original
circles (start = `fCenter1`/`fRadius1`, end = `fCenter2`/`fRadius2`), the
classification tag and the canonicalizing gradient matrix. -/
structure Gradient where
  fCenter1 : SkPoint
  fCenter2 : SkPoint
  fRadius1 : ℝ
  fRadius2 : ℝ
  fType : GradientType
  fGradientMatrix : SkMatrix

/-- Modelled from the spec: "derive the unique affine similarity transform
mapping the two-point source configuration `(c0, c1)` onto the two-point
target configuration `((0,0), (1,0))`. If no such transform exists
(degenerate/singular mapping) construction fails."
`SkMatrix::setPolyToPoly` lives in `SkMatrix.cpp` (outside `src/`); for a
two-point poly it derives that similarity, failing exactly when the source
mapping is singular, i.e. when the two source points coincide. -/
noncomputable def setPolyToPoly2 (c0 c1 : SkPoint) : Option SkMatrix :=
  if c0 = c1 then
    none
  else
    let dx := c1.x - c0.x
    let dy := c1.y - c0.y
    let L := dx * dx + dy * dy
    some ⟨dx / L, dy / L, -(dx * c0.x + dy * c0.y) / L,
          -dy / L, dx / L, (dy * c0.x - dx * c0.y) / L⟩

/-- `SkTwoPointConicalGradient::Create` (the descriptor bundle, opaque to this
core, is omitted): classify the two circles, derive the gradient matrix, and
construct the gradient object, or fail when the poly-to-poly mapping is
singular. -/
noncomputable def Create (c0 : SkPoint) (r0 : ℝ) (c1 : SkPoint) (r1 : ℝ) :
    Option Gradient :=
  if SkScalarNearlyZero ((c0.sub c1).length) then
    -- Concentric case: we can pretend we're radial (with a tiny twist).
    let scale := 1 / max r0 r1
    let gradientMatrix := (SkMatrix.MakeTrans (-c1.x) (-c1.y)).postScale scale scale
    some ⟨c0, c1, r0, r1, GradientType.kRadial, gradientMatrix⟩
  else
    match setPolyToPoly2 c0 c1 with
    | none =>
      -- Degenerate case.
      none
    | some gradientMatrix =>
      -- General two-point case.
      some ⟨c0, c1, r0, r1, GradientType.kTwoPoint, gradientMatrix⟩

/-- `SkTwoPointConicalGradient::isOpaque`: because areas outside the cone are
left untouched, the shader is never treated as opaque. -/
def Gradient.isOpaque (_g : Gradient) : Bool :=
  false

/-- `dRadius = fRadius2 - fRadius1` as computed at the top of
`appendGradientStages`. -/
noncomputable def dRadius (g : Gradient) : ℝ :=
  g.fRadius2 - g.fRadius1

/-- `dCenter = (fCenter1 - fCenter2).length()` as computed in the two-point
branch of `appendGradientStages`. -/
noncomputable def dCenter (g : Gradient) : ℝ :=
  ((g.fCenter1).sub g.fCenter2).length

/-- `coeffA = 1 - dRadius * dRadius / (dCenter * dCenter)` from
`appendGradientStages`. -/
noncomputable def coeffA (g : Gradient) : ℝ :=
  1 - dRadius g * dRadius g / (dCenter g * dCenter g)

/-- The `SkJumper_2PtConicalCtx` coefficient record filled in by
`appendGradientStages` (the per-pixel validity mask `fMask` is a transient
buffer, not a coefficient, and is represented by the mask stages instead). -/
structure SkJumper_2PtConicalCtx where
  fCoeffA : ℝ
  fInvCoeffA : ℝ
  fR0 : ℝ
  fDR : ℝ

/-- The coefficient record as populated by `appendGradientStages`:
`fCoeffA = coeffA`, `fInvCoeffA = 1 / coeffA`, `fR0 = fRadius1 / dCenter`,
`fDR = dRadius / dCenter`. -/
noncomputable def ctxOf (g : Gradient) : SkJumper_2PtConicalCtx :=
  ⟨coeffA g, 1 / coeffA g, g.fRadius1 / dCenter g, dRadius g / dCenter g⟩

/-- The raster-pipeline stages appended by `appendGradientStages` to the main
pipeline `p`.  `matrix` stands for `append_matrix` with the given affine
matrix. -/
inductive Stage where
  | xy_to_radius : Stage
  | matrix : SkMatrix → Stage
  | xy_to_2pt_conical_linear : SkJumper_2PtConicalCtx → Stage
  | xy_to_2pt_conical_quadratic_min : SkJumper_2PtConicalCtx → Stage
  | xy_to_2pt_conical_quadratic_max : SkJumper_2PtConicalCtx → Stage
  | mask_2pt_conical_degenerates : SkJumper_2PtConicalCtx → Stage

/-- The stages appended to the `postPipeline`. -/
inductive PostStage where
  | apply_vector_mask : PostStage
deriving DecidableEq

/-- The code's `isWellBehaved` flag at the end of the two-point branch of
`appendGradientStages`: initialized to `true`, set to `false` in the
`SkScalarNearlyZero(coeffA)` linear branch, and set to
`SkScalarAbs(dRadius) >= dCenter` in the quadratic branch. -/
def isWellBehaved (g : Gradient) : Prop :=
  ¬ SkScalarNearlyZero (coeffA g) ∧ |dRadius g| ≥ dCenter g

/-- `SkTwoPointConicalGradient::appendGradientStages`, returning the pair
(stages appended to `p`, stages appended to `postPipeline`).  The code's
single mutable `isWellBehaved` flag is flattened into the three two-point
branches: linear (not well-behaved), quadratic well-behaved (`min` when
flipped, i.e. `dRadius < 0`, else `max`), and quadratic not well-behaved
(not flipped, hence `max`); the mask stages are appended exactly in the
not-well-behaved branches. -/
noncomputable def appendGradientStages (g : Gradient) :
    List Stage × List PostStage :=
  if g.fType = GradientType.kRadial then
    -- Tiny twist: radial computes a t for [0, r2], but we want a t for [r1, r2].
    let scale := max g.fRadius1 g.fRadius2 / dRadius g
    let bias := -g.fRadius1 / dRadius g
    ([Stage.xy_to_radius,
      Stage.matrix (SkMatrix.Concat (SkMatrix.MakeTrans bias 0)
                                    (SkMatrix.MakeScale scale 1))],
     [])
  else
    let ctx := ctxOf g
    if SkScalarNearlyZero (coeffA g) then
      -- The focal point is on the edge of the end circle.
      ([Stage.xy_to_2pt_conical_linear ctx,
        Stage.mask_2pt_conical_degenerates ctx],
       [PostStage.apply_vector_mask])
    else if |dRadius g| ≥ dCenter g then
      ([if dRadius g < 0 then Stage.xy_to_2pt_conical_quadratic_min ctx
        else Stage.xy_to_2pt_conical_quadratic_max ctx],
       [])
    else
      ([Stage.xy_to_2pt_conical_quadratic_max ctx,
        Stage.mask_2pt_conical_degenerates ctx],
       [PostStage.apply_vector_mask])

/-- Modelled from the spec: per-pixel semantics of the stages the concentric
path emits.  `xy_to_radius` "computes the Euclidean distance from the origin"
into the x channel; `matrix` applies its affine matrix to the pixel
coordinates.  The per-pixel kernels of the two-point solver stages live in
`SkJumper` (outside `src/`) and are not needed by the claims, so evaluation
is undefined (`none`) on them. -/
noncomputable def evalStage : Stage → SkPoint → Option SkPoint
  | Stage.xy_to_radius, p => some ⟨p.length, p.y⟩
  | Stage.matrix m, p => some (m.apply p)
  | _, _ => none

/-- Sequential evaluation of a stage list on a pixel. -/
noncomputable def evalStages : List Stage → SkPoint → Option SkPoint
  | [], p => some p
  | s :: rest, p => (evalStage s p).bind (evalStages rest)

/-- One value in a serialization buffer (`SkWriteBuffer` / `SkReadBuffer`):
a point or a scalar.  The descriptor written by `INHERITED::flatten` and read
back by `desc.unflatten` is outside this core and omitted from the model. -/
inductive BufVal where
  | pt : SkPoint → BufVal
  | sc : ℝ → BufVal

/-- `SkTwoPointConicalGradient::flatten`: writes `fCenter1`, `fCenter2`,
`fRadius1`, `fRadius2`, in that order. -/
noncomputable def Gradient.flatten (g : Gradient) : List BufVal :=
  [BufVal.pt g.fCenter1, BufVal.pt g.fCenter2,
   BufVal.sc g.fRadius1, BufVal.sc g.fRadius2]

/-- `SkReadBuffer::readPoint`: consume one point from the buffer. -/
def readPoint : List BufVal → Option (SkPoint × List BufVal)
  | BufVal.pt p :: rest => some (p, rest)
  | _ => none

/-- `SkReadBuffer::readScalar`: consume one scalar from the buffer. -/
def readScalar : List BufVal → Option (ℝ × List BufVal)
  | BufVal.sc x :: rest => some (x, rest)
  | _ => none

/-- The parameter extraction of `SkTwoPointConicalGradient::CreateProc`:
read `c1`, `c2`, `r1`, `r2` in order; when `legacyFlip` is set (the reader is
on a pre-`k2PtConicalNoFlip` version and the stored flip bool is true) swap
the two (center, radius) pairs — the accompanying color/position reversal
acts on the descriptor, which is outside this core.  The result is the
`(center1, radius1, center2, radius2)` tuple passed to
`SkGradientShader::MakeTwoPointConical`. -/
def createProcParams (legacyFlip : Bool) (buffer : List BufVal) :
    Option (SkPoint × ℝ × SkPoint × ℝ) :=
  match readPoint buffer with
  | none => none
  | some (c1, b1) =>
    match readPoint b1 with
    | none => none
    | some (c2, b2) =>
      match readScalar b2 with
      | none => none
      | some (r1, b3) =>
        match readScalar b3 with
        | none => none
        | some (r2, _) =>
          if legacyFlip then some (c2, r2, c1, r1) else some (c1, r1, c2, r2)

theorem appendGradientStages_radial (g : Gradient)
    (htype : g.fType = GradientType.kRadial) :
    appendGradientStages g =
      ([Stage.xy_to_radius,
        Stage.matrix (SkMatrix.Concat
          (SkMatrix.MakeTrans (-g.fRadius1 / dRadius g) 0)
          (SkMatrix.MakeScale (max g.fRadius1 g.fRadius2 / dRadius g) 1))],
       []) := by
  unfold appendGradientStages
  rw [if_pos htype]

theorem appendGradientStages_twoPoint (g : Gradient)
    (htype : g.fType = GradientType.kTwoPoint) :
    appendGradientStages g =
      if SkScalarNearlyZero (coeffA g) then
        ([Stage.xy_to_2pt_conical_linear (ctxOf g),
          Stage.mask_2pt_conical_degenerates (ctxOf g)],
         [PostStage.apply_vector_mask])
      else if |dRadius g| ≥ dCenter g then
        ([if dRadius g < 0 then Stage.xy_to_2pt_conical_quadratic_min (ctxOf g)
          else Stage.xy_to_2pt_conical_quadratic_max (ctxOf g)],
         [])
      else
        ([Stage.xy_to_2pt_conical_quadratic_max (ctxOf g),
          Stage.mask_2pt_conical_degenerates (ctxOf g)],
         [PostStage.apply_vector_mask]) := by
  unfold appendGradientStages
  rw [if_neg (by rw [htype]; exact fun h => GradientType.noConfusion h)]

/-- Claim C10: for every constructed two-point conical gradient, regardless of
its circle parameters or color stops, the opacity query reports the shader as
not opaque: `isOpaque` always returns `false`. -/
theorem isOpaque_always_false (g : Gradient) : g.isOpaque = false :=
  rfl

/-- Claim C8: serializing a gradient and deserializing with the current
(non-legacy) format reconstructs exactly the same two centers and radii in
the same start/end roles: `flatten` emits `fCenter1`, `fCenter2`, `fRadius1`,
`fRadius2` in order, and the current-version reader consumes them in the same
order with no transformation, yielding the `(center1, radius1, center2,
radius2)` construction arguments. -/
theorem flatten_createProc_roundtrip (g : Gradient) (rest : List BufVal) :
    createProcParams false (g.flatten ++ rest) =
      some (g.fCenter1, g.fRadius1, g.fCenter2, g.fRadius2) :=
  rfl

/-- Claim C3: for every general-two-point gradient with `dCenter > 0`, the
`SkJumper_2PtConicalCtx` record built by `appendGradientStages` satisfies
`fCoeffA = 1 - dr^2` with `dr = (fRadius2 - fRadius1) / dCenter`, its stored
reciprocal equals `1 / fCoeffA`, and the stored rescaled radius equals
`fRadius1 / dCenter`. -/
theorem solver_coefficients_invariant (g : Gradient)
    (htype : g.fType = GradientType.kTwoPoint) (hd : 0 < dCenter g) :
    (ctxOf g).fCoeffA = 1 - ((g.fRadius2 - g.fRadius1) / dCenter g) ^ 2 ∧
    (ctxOf g).fInvCoeffA = 1 / (ctxOf g).fCoeffA ∧
    (ctxOf g).fR0 = g.fRadius1 / dCenter g := by
  refine ⟨?_, rfl, rfl⟩
  have hne : dCenter g ≠ 0 := ne_of_gt hd
  simp only [ctxOf, coeffA, dRadius]
  rw [div_pow]
  ring_nf

theorem solver_coefficients_invariant_witness :
    (ctxOf (⟨⟨0, 0⟩, ⟨1, 0⟩, 1, 3, GradientType.kTwoPoint,
             SkMatrix.MakeTrans 0 0⟩ : Gradient)).fCoeffA =
      1 - (((3 : ℝ) - 1) /
            dCenter (⟨⟨0, 0⟩, ⟨1, 0⟩, 1, 3, GradientType.kTwoPoint,
                      SkMatrix.MakeTrans 0 0⟩ : Gradient)) ^ 2 ∧
    (ctxOf (⟨⟨0, 0⟩, ⟨1, 0⟩, 1, 3, GradientType.kTwoPoint,
             SkMatrix.MakeTrans 0 0⟩ : Gradient)).fInvCoeffA =
      1 / (ctxOf (⟨⟨0, 0⟩, ⟨1, 0⟩, 1, 3, GradientType.kTwoPoint,
                  SkMatrix.MakeTrans 0 0⟩ : Gradient)).fCoeffA ∧
    (ctxOf (⟨⟨0, 0⟩, ⟨1, 0⟩, 1, 3, GradientType.kTwoPoint,
             SkMatrix.MakeTrans 0 0⟩ : Gradient)).fR0 =
      (1 : ℝ) / dCenter (⟨⟨0, 0⟩, ⟨1, 0⟩, 1, 3, GradientType.kTwoPoint,
                         SkMatrix.MakeTrans 0 0⟩ : Gradient) := by
  have hd : (0 : ℝ) < dCenter (⟨⟨0, 0⟩, ⟨1, 0⟩, 1, 3, GradientType.kTwoPoint,
                                SkMatrix.MakeTrans 0 0⟩ : Gradient) := by
    simp only [dCenter, SkPoint.sub, SkPoint.length]
    rw [Real.sqrt_pos]
    norm_num
  exact solver_coefficients_invariant _ rfl hd

/-- Claim C1: for every general-two-point gradient whose `coeffA` is not
numerically zero, the synthesizer marks the configuration well-behaved
exactly when `|dRadius| >= dCenter`, and it inserts the quadratic-max solving
stage, except that when the configuration is well-behaved and `dRadius < 0`
it inserts the quadratic-min solving stage instead. -/
theorem quadratic_stage_selection (g : Gradient)
    (htype : g.fType = GradientType.kTwoPoint)
    (hz : ¬ SkScalarNearlyZero (coeffA g)) :
    (isWellBehaved g ↔ |dRadius g| ≥ dCenter g) ∧
    (appendGradientStages g).1.head? =
      some (if |dRadius g| ≥ dCenter g ∧ dRadius g < 0
            then Stage.xy_to_2pt_conical_quadratic_min (ctxOf g)
            else Stage.xy_to_2pt_conical_quadratic_max (ctxOf g)) := by
  refine ⟨⟨fun h => h.2, fun h => ⟨hz, h⟩⟩, ?_⟩
  rw [appendGradientStages_twoPoint g htype, if_neg hz]
  by_cases hw : |dRadius g| ≥ dCenter g
  · rw [if_pos hw]
    by_cases hneg : dRadius g < 0
    · rw [if_pos hneg, if_pos ⟨hw, hneg⟩]
      rfl
    · rw [if_neg hneg, if_neg (fun h => hneg h.2)]
      rfl
  · rw [if_neg hw, if_neg (fun h => hw h.1)]
    rfl

theorem quadratic_stage_selection_witness :
    (isWellBehaved (⟨⟨0, 0⟩, ⟨1, 0⟩, 2, 4, GradientType.kTwoPoint,
                     SkMatrix.MakeTrans 0 0⟩ : Gradient) ↔
      |dRadius (⟨⟨0, 0⟩, ⟨1, 0⟩, 2, 4, GradientType.kTwoPoint,
                 SkMatrix.MakeTrans 0 0⟩ : Gradient)| ≥
        dCenter (⟨⟨0, 0⟩, ⟨1, 0⟩, 2, 4, GradientType.kTwoPoint,
                  SkMatrix.MakeTrans 0 0⟩ : Gradient)) ∧
    (appendGradientStages (⟨⟨0, 0⟩, ⟨1, 0⟩, 2, 4, GradientType.kTwoPoint,
                            SkMatrix.MakeTrans 0 0⟩ : Gradient)).1.head? =
      some (if |dRadius (⟨⟨0, 0⟩, ⟨1, 0⟩, 2, 4, GradientType.kTwoPoint,
                          SkMatrix.MakeTrans 0 0⟩ : Gradient)| ≥
              dCenter (⟨⟨0, 0⟩, ⟨1, 0⟩, 2, 4, GradientType.kTwoPoint,
                        SkMatrix.MakeTrans 0 0⟩ : Gradient) ∧
              dRadius (⟨⟨0, 0⟩, ⟨1, 0⟩, 2, 4, GradientType.kTwoPoint,
                        SkMatrix.MakeTrans 0 0⟩ : Gradient) < 0
            then Stage.xy_to_2pt_conical_quadratic_min
                   (ctxOf (⟨⟨0, 0⟩, ⟨1, 0⟩, 2, 4, GradientType.kTwoPoint,
                            SkMatrix.MakeTrans 0 0⟩ : Gradient))
            else Stage.xy_to_2pt_conical_quadratic_max
                   (ctxOf (⟨⟨0, 0⟩, ⟨1, 0⟩, 2, 4, GradientType.kTwoPoint,
                            SkMatrix.MakeTrans 0 0⟩ : Gradient))) := by
  have hdc : dCenter (⟨⟨0, 0⟩, ⟨1, 0⟩, 2, 4, GradientType.kTwoPoint,
                      SkMatrix.MakeTrans 0 0⟩ : Gradient) = 1 := by
    simp only [dCenter, SkPoint.sub, SkPoint.length]
    norm_num
  have hz : ¬ SkScalarNearlyZero (coeffA (⟨⟨0, 0⟩, ⟨1, 0⟩, 2, 4,
      GradientType.kTwoPoint, SkMatrix.MakeTrans 0 0⟩ : Gradient)) := by
    simp only [SkScalarNearlyZero, SK_ScalarNearlyZero, coeffA, dRadius, hdc]
    norm_num
  exact quadratic_stage_selection _ rfl hz

/-- Claim C2: the synthesizer appends the degenerate-mask stage and the
post-pipeline mask-application stage if and only if the gradient is a
general-two-point one whose configuration is not well-behaved — i.e. exactly
in the `coeffA`-numerically-zero linear case and in the quadratic case with
`|dRadius| < dCenter` — and no mask stages are appended for well-behaved or
concentric configurations. -/
theorem mask_stages_iff_not_wellBehaved (g : Gradient) :
    (((∃ c, Stage.mask_2pt_conical_degenerates c ∈ (appendGradientStages g).1) ∧
        (appendGradientStages g).2 = [PostStage.apply_vector_mask]) ↔
      (g.fType = GradientType.kTwoPoint ∧
        (SkScalarNearlyZero (coeffA g) ∨
          (¬ SkScalarNearlyZero (coeffA g) ∧ |dRadius g| < dCenter g)))) ∧
    (¬ (g.fType = GradientType.kTwoPoint ∧ ¬ isWellBehaved g) →
      (∀ c, Stage.mask_2pt_conical_degenerates c ∉ (appendGradientStages g).1) ∧
      (appendGradientStages g).2 = []) := by
  cases hty : g.fType
  case kRadial =>
    rw [appendGradientStages_radial g hty]
    constructor
    · simp [hty]
    · intro _
      constructor
      · intro c
        simp
      · rfl
  case kTwoPoint =>
    rw [appendGradientStages_twoPoint g hty]
    by_cases hz : SkScalarNearlyZero (coeffA g)
    · rw [if_pos hz]
      constructor
      · constructor
        · intro _
          exact ⟨rfl, Or.inl hz⟩
        · intro _
          exact ⟨⟨ctxOf g, by simp⟩, rfl⟩
      · intro hcon
        exact absurd ⟨rfl, fun hwb => hwb.1 hz⟩ hcon
    · rw [if_neg hz]
      by_cases hw : |dRadius g| ≥ dCenter g
      · rw [if_pos hw]
        constructor
        · constructor
          · rintro ⟨⟨c, hc⟩, -⟩
            revert hc
            split <;> simp
          · rintro ⟨-, hz2 | ⟨-, hlt⟩⟩
            · exact absurd hz2 hz
            · exact absurd hw (not_le.mpr hlt)
        · intro _
          constructor
          · intro c
            simp only [List.mem_singleton]
            split <;> simp
          · rfl
      · rw [if_neg hw]
        constructor
        · constructor
          · intro _
            exact ⟨rfl, Or.inr ⟨hz, lt_of_not_ge hw⟩⟩
          · intro _
            exact ⟨⟨ctxOf g, by simp⟩, rfl⟩
        · intro hcon
          exact absurd ⟨rfl, fun hwb => hw hwb.2⟩ hcon

theorem mask_stages_iff_not_wellBehaved_witness :
    (∃ c, Stage.mask_2pt_conical_degenerates c ∈
        (appendGradientStages (⟨⟨0, 0⟩, ⟨1, 0⟩, 1, 5/4, GradientType.kTwoPoint,
                                SkMatrix.MakeTrans 0 0⟩ : Gradient)).1) ∧
    (appendGradientStages (⟨⟨0, 0⟩, ⟨1, 0⟩, 1, 5/4, GradientType.kTwoPoint,
                            SkMatrix.MakeTrans 0 0⟩ : Gradient)).2 =
      [PostStage.apply_vector_mask] := by
  have hdc : dCenter (⟨⟨0, 0⟩, ⟨1, 0⟩, 1, 5/4, GradientType.kTwoPoint,
                      SkMatrix.MakeTrans 0 0⟩ : Gradient) = 1 := by
    simp only [dCenter, SkPoint.sub, SkPoint.length]
    norm_num
  have hcoeff : coeffA (⟨⟨0, 0⟩, ⟨1, 0⟩, 1, 5/4, GradientType.kTwoPoint,
                         SkMatrix.MakeTrans 0 0⟩ : Gradient) = 15/16 := by
    simp only [coeffA, dRadius, hdc]
    norm_num
  have hdr : dRadius (⟨⟨0, 0⟩, ⟨1, 0⟩, 1, 5/4, GradientType.kTwoPoint,
                      SkMatrix.MakeTrans 0 0⟩ : Gradient) = 1/4 := by
    simp only [dRadius]
    norm_num
  apply (mask_stages_iff_not_wellBehaved _).1.mpr
  refine ⟨rfl, Or.inr ⟨?_, ?_⟩⟩
  · rw [SkScalarNearlyZero, hcoeff, abs_of_nonneg (by norm_num : (0:ℝ) ≤ 15/16),
        SK_ScalarNearlyZero]
    norm_num
  · rw [hdr, hdc, abs_of_nonneg (by norm_num : (0:ℝ) ≤ 1/4)]
    norm_num

/-- Claim C5: for every general-two-point gradient, the synthesizer inserts
the linear-solve stage (the full main-pipeline stage list is then the linear
stage followed by the degenerate mask, so neither quadratic stage appears)
if and only if `coeffA` is numerically zero, and every such configuration is
treated as not well-behaved. -/
theorem linear_stage_iff_coeffA_nearlyZero (g : Gradient)
    (htype : g.fType = GradientType.kTwoPoint) :
    ((appendGradientStages g).1 =
        [Stage.xy_to_2pt_conical_linear (ctxOf g),
         Stage.mask_2pt_conical_degenerates (ctxOf g)] ↔
      SkScalarNearlyZero (coeffA g)) ∧
    (SkScalarNearlyZero (coeffA g) → ¬ isWellBehaved g) := by
  refine ⟨?_, fun hz hwb => hwb.1 hz⟩
  rw [appendGradientStages_twoPoint g htype]
  by_cases hz : SkScalarNearlyZero (coeffA g)
  · rw [if_pos hz]
    simp [hz]
  · rw [if_neg hz]
    by_cases hw : |dRadius g| ≥ dCenter g
    · rw [if_pos hw]
      simp only [iff_false, hz]
      intro h
      rw [List.cons_eq_cons] at h
      exact absurd h.2 (by simp)
    · rw [if_neg hw]
      simp [hz]

theorem linear_stage_iff_coeffA_nearlyZero_witness :
    (appendGradientStages (⟨⟨0, 0⟩, ⟨1, 0⟩, 0, 1, GradientType.kTwoPoint,
                            SkMatrix.MakeTrans 0 0⟩ : Gradient)).1 =
      [Stage.xy_to_2pt_conical_linear
         (ctxOf (⟨⟨0, 0⟩, ⟨1, 0⟩, 0, 1, GradientType.kTwoPoint,
                  SkMatrix.MakeTrans 0 0⟩ : Gradient)),
       Stage.mask_2pt_conical_degenerates
         (ctxOf (⟨⟨0, 0⟩, ⟨1, 0⟩, 0, 1, GradientType.kTwoPoint,
                  SkMatrix.MakeTrans 0 0⟩ : Gradient))] := by
  have hdc : dCenter (⟨⟨0, 0⟩, ⟨1, 0⟩, 0, 1, GradientType.kTwoPoint,
                      SkMatrix.MakeTrans 0 0⟩ : Gradient) = 1 := by
    simp only [dCenter, SkPoint.sub, SkPoint.length]
    norm_num
  apply (linear_stage_iff_coeffA_nearlyZero _ rfl).1.mpr
  simp only [SkScalarNearlyZero, SK_ScalarNearlyZero, coeffA, dRadius, hdc]
  norm_num

theorem nearlyZero_length_of_eq (c0 c1 : SkPoint) (h : c0 = c1) :
    SkScalarNearlyZero ((c0.sub c1).length) := by
  subst h
  simp only [SkScalarNearlyZero, SK_ScalarNearlyZero, SkPoint.sub, SkPoint.length,
    sub_self, mul_zero, add_zero, Real.sqrt_zero, abs_zero]
  norm_num

/-- Claim C4: classification yields `Concentric` (`kRadial`) exactly when the
distance between the two centers is numerically indistinguishable from zero,
in which case the canonical transform is the translation by
`(-c1.x, -c1.y)` composed with the uniform scale `1 / max r0 r1`; for every
pair with center distance not near zero it yields `GeneralTwoPoint`
(`kTwoPoint`). -/
theorem classify_concentric_or_general (c0 : SkPoint) (r0 : ℝ)
    (c1 : SkPoint) (r1 : ℝ) :
    (SkScalarNearlyZero ((c0.sub c1).length) →
      Create c0 r0 c1 r1 =
        some ⟨c0, c1, r0, r1, GradientType.kRadial,
              (SkMatrix.MakeTrans (-c1.x) (-c1.y)).postScale
                (1 / max r0 r1) (1 / max r0 r1)⟩) ∧
    (¬ SkScalarNearlyZero ((c0.sub c1).length) →
      ∃ m, Create c0 r0 c1 r1 =
        some ⟨c0, c1, r0, r1, GradientType.kTwoPoint, m⟩) := by
  constructor
  · intro h
    unfold Create
    rw [if_pos h]
  · intro h
    have hne : c0 ≠ c1 := fun he => h (nearlyZero_length_of_eq c0 c1 he)
    unfold Create
    rw [if_neg h]
    unfold setPolyToPoly2
    rw [if_neg hne]
    exact ⟨_, rfl⟩

theorem classify_concentric_or_general_witness :
    Create ⟨0, 0⟩ 2 ⟨0, 0⟩ 4 =
      some ⟨⟨0, 0⟩, ⟨0, 0⟩, 2, 4, GradientType.kRadial,
            (SkMatrix.MakeTrans (-(0 : ℝ)) (-(0 : ℝ))).postScale
              (1 / max 2 4) (1 / max 2 4)⟩ :=
  (classify_concentric_or_general ⟨0, 0⟩ 2 ⟨0, 0⟩ 4).1
    (nearlyZero_length_of_eq ⟨0, 0⟩ ⟨0, 0⟩ rfl)

/-- Claim C6: construction fails (producing no shader) exactly when the input
is classified general-two-point and the similarity transform mapping
`(c0, c1)` onto `((0,0), (1,0))` cannot be derived; this is the only
condition under which construction fails, and concentric inputs never fail
construction. -/
theorem construction_failure_characterization (c0 : SkPoint) (r0 : ℝ)
    (c1 : SkPoint) (r1 : ℝ) :
    (Create c0 r0 c1 r1 = none ↔
      (¬ SkScalarNearlyZero ((c0.sub c1).length) ∧
        setPolyToPoly2 c0 c1 = none)) ∧
    (SkScalarNearlyZero ((c0.sub c1).length) →
      ∃ g, Create c0 r0 c1 r1 = some g) := by
  unfold Create
  by_cases h : SkScalarNearlyZero ((c0.sub c1).length)
  · rw [if_pos h]
    exact ⟨by simp [h], fun _ => ⟨_, rfl⟩⟩
  · rw [if_neg h]
    cases hp : setPolyToPoly2 c0 c1
    · exact ⟨by simp [h, hp], fun hh => absurd hh h⟩
    · exact ⟨by simp [hp], fun hh => absurd hh h⟩

theorem construction_failure_characterization_witness :
    ∃ g, Create ⟨0, 0⟩ 1 ⟨0, 0⟩ 2 = some g :=
  (construction_failure_characterization ⟨0, 0⟩ 1 ⟨0, 0⟩ 2).2
    (nearlyZero_length_of_eq ⟨0, 0⟩ ⟨0, 0⟩ rfl)

/-- Claim C7: for every concentric-classified gradient the stage sequence is
`xy_to_radius` (Euclidean distance from the canonical-space origin) followed
by the 1D affine remap `t ↦ scale * t + bias` with
`scale = max r0 r1 / (r1 - r0)` and `bias = -r0 / (r1 - r0)`, so that
evaluating the pipeline on a pixel yields exactly `scale * distance + bias`
in the t channel. -/
theorem concentric_stage_semantics (g : Gradient)
    (htype : g.fType = GradientType.kRadial) :
    (appendGradientStages g).1 =
      [Stage.xy_to_radius,
       Stage.matrix (SkMatrix.Concat
         (SkMatrix.MakeTrans (-g.fRadius1 / (g.fRadius2 - g.fRadius1)) 0)
         (SkMatrix.MakeScale
           (max g.fRadius1 g.fRadius2 / (g.fRadius2 - g.fRadius1)) 1))] ∧
    (appendGradientStages g).2 = [] ∧
    ∀ p : SkPoint,
      evalStages (appendGradientStages g).1 p =
        some ⟨(max g.fRadius1 g.fRadius2 / (g.fRadius2 - g.fRadius1)) *
                p.length + -g.fRadius1 / (g.fRadius2 - g.fRadius1), p.y⟩ := by
  rw [appendGradientStages_radial g htype]
  refine ⟨rfl, rfl, fun p => ?_⟩
  simp only [evalStages, evalStage, Option.bind, SkMatrix.MakeTrans,
    SkMatrix.MakeScale, SkMatrix.Concat, SkMatrix.apply, dRadius,
    SkPoint.mk.injEq, Option.some.injEq]
  constructor <;> ring

theorem concentric_stage_semantics_witness :
    evalStages (appendGradientStages (⟨⟨0, 0⟩, ⟨0, 0⟩, 2, 4,
        GradientType.kRadial, SkMatrix.MakeTrans 0 0⟩ : Gradient)).1
        ⟨1/2, 0⟩ = some ⟨0, 0⟩ ∧
    evalStages (appendGradientStages (⟨⟨0, 0⟩, ⟨0, 0⟩, 2, 4,
        GradientType.kRadial, SkMatrix.MakeTrans 0 0⟩ : Gradient)).1
        ⟨1, 0⟩ = some ⟨1, 0⟩ := by
  have h := (concentric_stage_semantics (⟨⟨0, 0⟩, ⟨0, 0⟩, 2, 4,
      GradientType.kRadial, SkMatrix.MakeTrans 0 0⟩ : Gradient) rfl).2.2
  have e1 := h ⟨1/2, 0⟩
  have e2 := h ⟨1, 0⟩
  have l1 : SkPoint.length ⟨1/2, 0⟩ = 1/2 := by
    simp only [SkPoint.length]
    rw [show ((1:ℝ)/2 * (1/2) + 0 * 0) = (1/2) ^ 2 by norm_num]
    exact Real.sqrt_sq (by norm_num)
  have l2 : SkPoint.length ⟨1, 0⟩ = 1 := by
    simp only [SkPoint.length]
    norm_num
  rw [l1] at e1
  rw [l2] at e2
  constructor
  · rw [e1]
    norm_num
  · rw [e2]
    norm_num

/-- Claim C9 is refuted by this input: the two centers are distinct (so the
constructor's not-both-identical requirement holds) but their distance is
within the nearly-zero tolerance, so construction accepts the circles and
classifies them `Concentric` while the radii are equal, making the radius
delta used as the remap divisor zero. -/
theorem concentric_zero_dRadius_counterexample :
    ∃ g, Create ⟨0, 0⟩ 1 ⟨1/8192, 0⟩ 1 = some g ∧
      ¬ ((⟨0, 0⟩ : SkPoint) = (⟨1/8192, 0⟩ : SkPoint) ∧ (1 : ℝ) = 1) ∧
      g.fType = GradientType.kRadial ∧
      dRadius g = 0 := by
  have h : SkScalarNearlyZero (((⟨0, 0⟩ : SkPoint).sub ⟨1/8192, 0⟩).length) := by
    simp only [SkScalarNearlyZero, SK_ScalarNearlyZero, SkPoint.sub, SkPoint.length]
    rw [show ((0 - 1/8192 : ℝ) * (0 - 1/8192) + (0 - 0) * (0 - 0)) =
          (1/8192) ^ 2 by norm_num]
    rw [Real.sqrt_sq (by norm_num : (0:ℝ) ≤ 1/8192)]
    rw [abs_of_nonneg (by norm_num : (0:ℝ) ≤ 1/8192)]
    norm_num
  refine ⟨_, by unfold Create; rw [if_pos h], ?_, rfl, ?_⟩
  · rintro ⟨hc, -⟩
    have hx := congrArg SkPoint.x hc
    norm_num at hx
  · simp only [dRadius]
    norm_num

/-- Claim C9 (amended): for every input accepted by construction, satisfying
the constructor's requirement that the two circles are not identical and
classified `Concentric`, IF additionally the two centers are exactly equal,
then the radius delta `r1 - r0` used as the divisor of the remap's scale and
bias is nonzero.  (With merely nearly-coincident but distinct centers the
radii may be equal, so the unamended claim fails; see the counterexample.) -/
theorem concentric_dRadius_nonzero_of_exact_centers (c0 : SkPoint) (r0 : ℝ)
    (c1 : SkPoint) (r1 : ℝ) (g : Gradient)
    (hacc : Create c0 r0 c1 r1 = some g)
    (hnid : ¬ (c0 = c1 ∧ r0 = r1))
    (htype : g.fType = GradientType.kRadial)
    (hcen : c0 = c1) :
    dRadius g ≠ 0 := by
  have hr : r0 ≠ r1 := fun h => hnid ⟨hcen, h⟩
  have hfields : g.fRadius1 = r0 ∧ g.fRadius2 = r1 := by
    unfold Create at hacc
    by_cases h : SkScalarNearlyZero ((c0.sub c1).length)
    · rw [if_pos h] at hacc
      simp only [Option.some.injEq] at hacc
      subst hacc
      exact ⟨rfl, rfl⟩
    · rw [if_neg h] at hacc
      cases hp : setPolyToPoly2 c0 c1 <;> rw [hp] at hacc
      · exact absurd hacc (by simp)
      · simp only [Option.some.injEq] at hacc
        subst hacc
        exact ⟨rfl, rfl⟩
  simp only [dRadius, hfields.1, hfields.2]
  exact sub_ne_zero.mpr (Ne.symm hr)

theorem concentric_dRadius_nonzero_witness :
    dRadius (⟨⟨0, 0⟩, ⟨0, 0⟩, 2, 4, GradientType.kRadial,
             (SkMatrix.MakeTrans (-(0:ℝ)) (-(0:ℝ))).postScale
               (1 / max 2 4) (1 / max 2 4)⟩ : Gradient) ≠ 0 := by
  have hacc : Create ⟨0, 0⟩ 2 ⟨0, 0⟩ 4 =
      some ⟨⟨0, 0⟩, ⟨0, 0⟩, 2, 4, GradientType.kRadial,
            (SkMatrix.MakeTrans (-(0:ℝ)) (-(0:ℝ))).postScale
              (1 / max 2 4) (1 / max 2 4)⟩ := by
    unfold Create
    rw [if_pos (nearlyZero_length_of_eq ⟨0, 0⟩ ⟨0, 0⟩ rfl)]
  exact concentric_dRadius_nonzero_of_exact_centers ⟨0, 0⟩ 2 ⟨0, 0⟩ 4 _ hacc
    (fun hid => by norm_num at hid) rfl rfl
